import Mathlib

/-!
Verification of the speaker-separation repository.

The repository contains two transcription pipelines:
* `amazon_speaker_diarization.py` — submits a job to Amazon Transcribe,
  polls it, and reassembles the returned items into per-speaker text using
  full containment of an item time window in a speaker segment window;
* `google_speaker_diarization.py` — calls Google Speech-to-Text and regroups
  speaker-tagged words into per-speaker text.

Both scripts accumulate results in a Python `dict` keyed by speaker, where
keys appear in order of first insertion.  This file embeds that dictionary
discipline as an association list (`upsert` / `groupByFirst`), embeds the
two reassembly algorithms and the polling loops, and proves the claims.
-/

/-- Python `' '.join(ws)`. -/
def joinSpaces (ws : List String) : String :=
  String.intercalate " " ws

section Grouping

variable {κ : Type} {σ : Type} [DecidableEq κ]

/-- One dictionary step shared by both scripts: make sure key `k` is present
(Python `if k not in d: d[k] = []`), then, when a value is supplied, append
it to the list stored at `k` (Python `d[k].append(x)`).  Keys keep their
insertion order, as Python dictionaries do. -/
def upsert (acc : List (κ × List σ)) (k : κ) (v : Option σ) : List (κ × List σ) :=
  let acc1 := if acc.any (fun p => decide (p.1 = k)) then acc else acc ++ [(k, [])]
  match v with
  | none => acc1
  | some x => acc1.map (fun p => if p.1 = k then (p.1, p.2 ++ [x]) else p)

/-- Folding `upsert` over a list of keyed optional values, starting from the
empty dictionary. -/
def groupByFirst (l : List (κ × Option σ)) : List (κ × List σ) :=
  l.foldl (fun acc p => upsert acc p.1 p.2) []

/-- The keys of a list in order of first appearance. -/
def dedupFirst (l : List κ) : List κ :=
  l.foldl (fun acc x => if x ∈ acc then acc else acc ++ [x]) []

/-- All values carried by entries of `l` with key `k`, in order. -/
def groupVals (l : List (κ × Option σ)) (k : κ) : List σ :=
  (l.filter (fun p => decide (p.1 = k))).filterMap Prod.snd

/-- Declarative description of `groupByFirst`: keys in order of first
appearance, each paired with its values in order. -/
def specGroup (l : List (κ × Option σ)) : List (κ × List σ) :=
  (dedupFirst (l.map Prod.fst)).map (fun k => (k, groupVals l k))

lemma mem_foldl_dedup (l : List κ) :
    ∀ (acc : List κ) (x : κ),
      x ∈ l.foldl (fun acc y => if y ∈ acc then acc else acc ++ [y]) acc ↔
        x ∈ acc ∨ x ∈ l := by
  induction l with
  | nil => intro acc x; simp
  | cons h t ih =>
    intro acc x
    simp only [List.foldl_cons]
    rw [ih]
    by_cases hh : h ∈ acc
    · simp only [if_pos hh, List.mem_cons]
      constructor
      · rintro (hx | hx)
        · exact Or.inl hx
        · exact Or.inr (Or.inr hx)
      · rintro (hx | rfl | hx)
        · exact Or.inl hx
        · exact Or.inl hh
        · exact Or.inr hx
    · simp only [if_neg hh, List.mem_append, List.mem_singleton, List.mem_cons]
      tauto

lemma mem_dedupFirst (x : κ) (l : List κ) : x ∈ dedupFirst l ↔ x ∈ l := by
  unfold dedupFirst
  rw [mem_foldl_dedup]
  simp

lemma dedupFirst_snoc (l : List κ) (y : κ) :
    dedupFirst (l ++ [y]) = if y ∈ l then dedupFirst l else dedupFirst l ++ [y] := by
  have h1 : dedupFirst (l ++ [y]) =
      if y ∈ dedupFirst l then dedupFirst l else dedupFirst l ++ [y] := by
    unfold dedupFirst
    rw [List.foldl_append]
    rfl
  rw [h1]
  by_cases hy : y ∈ l
  · rw [if_pos ((mem_dedupFirst y l).mpr hy), if_pos hy]
  · rw [if_neg (fun hc => hy ((mem_dedupFirst y l).mp hc)), if_neg hy]

lemma groupVals_snoc (l : List (κ × Option σ)) (q : κ × Option σ) (k : κ) :
    groupVals (l ++ [q]) k =
      groupVals l k ++ (if q.1 = k then q.2.toList else []) := by
  obtain ⟨k0, v0⟩ := q
  unfold groupVals
  rw [List.filter_append, List.filterMap_append]
  congr 1
  by_cases h : k0 = k
  · cases v0 <;> simp [h, Option.toList]
  · simp [h]

lemma groupVals_eq_nil_of_not_mem {l : List (κ × Option σ)} {k : κ}
    (h : k ∉ l.map Prod.fst) : groupVals l k = [] := by
  unfold groupVals
  have hf : List.filter (fun p => decide (p.1 = k)) l = [] := by
    rw [List.filter_eq_nil_iff]
    intro p hp
    simp only [decide_eq_true_eq]
    intro he
    exact h (he ▸ List.mem_map_of_mem Prod.fst hp)
  rw [hf]
  rfl

lemma specGroup_any_iff (l : List (κ × Option σ)) (k : κ) :
    (specGroup l).any (fun p => decide (p.1 = k)) = true ↔ k ∈ l.map Prod.fst := by
  rw [List.any_eq_true]
  constructor
  · rintro ⟨p, hp, hdec⟩
    have hk : p.1 = k := by simpa using hdec
    have : p.1 ∈ (dedupFirst (l.map Prod.fst)) := by
      rcases List.mem_map.mp hp with ⟨k1, hk1, rfl⟩
      simpa using hk1
    exact (mem_dedupFirst _ _).mp (hk ▸ this)
  · intro hk
    refine ⟨(k, groupVals l k), ?_, by simp⟩
    exact List.mem_map_of_mem _ ((mem_dedupFirst k _).mpr hk)

lemma upsert_specGroup (l : List (κ × Option σ)) (k : κ) (v : Option σ) :
    upsert (specGroup l) k v = specGroup (l ++ [(k, v)]) := by
  unfold upsert
  by_cases hk : k ∈ l.map Prod.fst
  · rw [if_pos ((specGroup_any_iff l k).mpr hk)]
    have hkeys : dedupFirst ((l ++ [(k, v)]).map Prod.fst) =
        dedupFirst (l.map Prod.fst) := by
      rw [List.map_append]
      simp only [List.map_cons, List.map_nil]
      rw [dedupFirst_snoc, if_pos hk]
    cases v with
    | none =>
      show specGroup l = specGroup (l ++ [(k, none)])
      unfold specGroup
      rw [hkeys]
      apply List.map_congr_left
      intro k1 _
      rw [groupVals_snoc]
      simp
    | some x =>
      show (specGroup l).map
          (fun p : κ × List σ => if p.1 = k then (p.1, p.2 ++ [x]) else p) =
        specGroup (l ++ [(k, some x)])
      unfold specGroup
      rw [hkeys, List.map_map]
      apply List.map_congr_left
      intro k1 _
      simp only [Function.comp]
      by_cases h1 : k1 = k
      · subst h1
        rw [if_pos rfl, groupVals_snoc]
        simp
      · rw [if_neg h1, groupVals_snoc]
        have h2 : ¬k = k1 := fun h => h1 (Eq.symm h)
        simp [h2]
  · rw [if_neg (fun hc => hk ((specGroup_any_iff l k).mp hc))]
    have hkeys : dedupFirst ((l ++ [(k, v)]).map Prod.fst) =
        dedupFirst (l.map Prod.fst) ++ [k] := by
      rw [List.map_append]
      simp only [List.map_cons, List.map_nil]
      rw [dedupFirst_snoc, if_neg hk]
    cases v with
    | none =>
      show specGroup l ++ [(k, [])] = specGroup (l ++ [(k, none)])
      unfold specGroup
      rw [hkeys, List.map_append]
      congr 1
      · apply List.map_congr_left
        intro k1 hk1
        have h1 : k1 ≠ k := by
          intro h
          exact hk (h ▸ (mem_dedupFirst k1 _).mp hk1)
        rw [groupVals_snoc]
        have h2 : ¬k = k1 := fun h => h1 (Eq.symm h)
        simp [h2]
      · simp only [List.map_cons, List.map_nil]
        rw [groupVals_snoc, groupVals_eq_nil_of_not_mem hk]
        simp
    | some x =>
      show (specGroup l ++ [(k, [])]).map
          (fun p : κ × List σ => if p.1 = k then (p.1, p.2 ++ [x]) else p) =
        specGroup (l ++ [(k, some x)])
      unfold specGroup
      rw [hkeys, List.map_append, List.map_append]
      congr 1
      · rw [List.map_map]
        apply List.map_congr_left
        intro k1 hk1
        have h1 : k1 ≠ k := by
          intro h
          exact hk (h ▸ (mem_dedupFirst k1 _).mp hk1)
        simp only [Function.comp]
        rw [if_neg h1, groupVals_snoc]
        have h2 : ¬k = k1 := fun h => h1 (Eq.symm h)
        simp [h2]
      · simp only [List.map_cons, List.map_nil]
        rw [groupVals_snoc, groupVals_eq_nil_of_not_mem hk]
        simp

lemma groupByFirst_eq_specGroup (l : List (κ × Option σ)) :
    groupByFirst l = specGroup l := by
  induction l using List.reverseRecOn with
  | nil => rfl
  | append_singleton l p ih =>
    have hstep : groupByFirst (l ++ [p]) = upsert (groupByFirst l) p.1 p.2 := by
      unfold groupByFirst
      rw [List.foldl_append]
      rfl
    cases p with
    | mk k v => rw [hstep, ih, upsert_specGroup]

end Grouping

/-! ## Amazon Transcribe pipeline (`amazon_speaker_diarization.py`) -/

/-- A speaker segment from `data.results.speaker_labels.segments`:
`speaker_label`, `start_time`, `end_time` (the script converts the times
with `float`). -/
structure AmzSegment where
  speaker_label : String
  start_time : ℚ
  end_time : ℚ
deriving DecidableEq

/-- A recognized item from `data.results.items`.  Pronunciation items carry
`start_time` and `end_time`; punctuation items carry neither, which the
script detects via `if start_time not in item: continue` — modelled as an
optional timing pair.  `alternatives` is the list of `content` strings of
the item's alternatives. -/
structure AmzItem where
  timing : Option (ℚ × ℚ)
  alternatives : List String
deriving DecidableEq

/-- The script's membership test for an item in a segment: the item is
skipped when it has no timing, otherwise it qualifies exactly when
`item_start_time >= start_time and item_end_time <= end_time`. -/
def itemQualifies (segment : AmzSegment) (item : AmzItem) : Bool :=
  match item.timing with
  | none => false
  | some se => decide (segment.start_time ≤ se.1 ∧ se.2 ≤ segment.end_time)

/-- The inner loop over `items` for one segment: the texts
(`alternatives[0].content`) of the qualifying items, in item order; items
with an empty `alternatives` list contribute nothing
(`if 'alternatives' in item and len(item['alternatives']) > 0`). -/
def segmentWords (segment : AmzSegment) (items : List AmzItem) : List String :=
  (items.filter (fun item => itemQualifies segment item)).filterMap
    (fun item =>
      match item.alternatives with
      | [] => none
      | content :: _ => some content)

/-- The per-segment loop of `transcribe_with_speaker_diarization`: the
`speaker_transcripts` dictionary after processing every segment, each entry
holding the list of joined utterances of that speaker, before the final
join.  Mirrors: ensure the label is present, and append
`' '.join(segment_words)` only `if segment_words` is non-empty. -/
def amazonReassembleLists (speaker_segments : List AmzSegment)
    (items : List AmzItem) : List (String × List String) :=
  speaker_segments.foldl
    (fun acc segment =>
      let acc1 := if acc.any (fun p => decide (p.1 = segment.speaker_label)) then acc
        else acc ++ [(segment.speaker_label, [])]
      let ws := segmentWords segment items
      if ws.isEmpty then acc1
      else acc1.map (fun p =>
        if p.1 = segment.speaker_label then (p.1, p.2 ++ [joinSpaces ws]) else p))
    []

/-- The final result of the reassembly: for each speaker the utterances are
joined with `' '.join(segments)`. -/
def amazonTranscripts (speaker_segments : List AmzSegment)
    (items : List AmzItem) : List (String × String) :=
  (amazonReassembleLists speaker_segments items).map
    (fun p => (p.1, joinSpaces p.2))

/-- The utterance a segment contributes: `' '.join` of the qualifying
texts, or nothing when no item qualifies. -/
def segUtterOpt (items : List AmzItem) (segment : AmzSegment) : Option String :=
  let ws := segmentWords segment items
  if ws.isEmpty then none else some (joinSpaces ws)

/-- Declarative description of the Amazon reassembly, following the spec:
speakers appear in order of first appearance of their label among the
segments; each speaker's text is the space-join of the utterances of that
speaker's segments in segment order, where a segment's utterance is the
space-join of its qualifying items' texts (a segment with no qualifying
item forms no utterance). -/
def specAmazonTranscripts (speaker_segments : List AmzSegment)
    (items : List AmzItem) : List (String × String) :=
  (dedupFirst (speaker_segments.map (fun s => s.speaker_label))).map
    (fun l =>
      (l, joinSpaces
        (((speaker_segments.filter (fun s => decide (s.speaker_label = l))).filterMap
          (segUtterOpt items)))))

lemma amazonReassembleLists_eq_groupByFirst (speaker_segments : List AmzSegment)
    (items : List AmzItem) :
    amazonReassembleLists speaker_segments items =
      groupByFirst (speaker_segments.map
        (fun s => (s.speaker_label, segUtterOpt items s))) := by
  unfold amazonReassembleLists groupByFirst
  rw [List.foldl_map]
  apply List.foldl_ext
  intro acc segment _
  by_cases hws : (segmentWords segment items).isEmpty
  · simp [upsert, segUtterOpt, hws]
  · simp [upsert, segUtterOpt, hws]

lemma amazonTranscripts_eq_spec (speaker_segments : List AmzSegment)
    (items : List AmzItem) :
    amazonTranscripts speaker_segments items =
      specAmazonTranscripts speaker_segments items := by
  unfold amazonTranscripts specAmazonTranscripts
  rw [amazonReassembleLists_eq_groupByFirst, groupByFirst_eq_specGroup]
  unfold specGroup
  rw [List.map_map, List.map_map]
  apply List.map_congr_left
  intro l _
  simp only [Function.comp]
  congr 1
  unfold groupVals
  rw [List.filter_map, List.filterMap_map]
  rfl

/-- Looking a key up in an insertion-ordered association list (the
embedding of `dict` access used to state membership claims). -/
def lookupKey {κ σ : Type} [DecidableEq κ] (m : List (κ × σ)) (k : κ) : Option σ :=
  (m.find? (fun p => decide (p.1 = k))).map Prod.snd

lemma find?_eq_self_of_mem {κ : Type} [DecidableEq κ] (xs : List κ) (k : κ)
    (h : k ∈ xs) : xs.find? (fun y => decide (y = k)) = some k := by
  induction xs with
  | nil => cases h
  | cons x t ih =>
    by_cases hx : x = k
    · subst hx
      simp [List.find?_cons_of_pos]
    · rw [List.find?_cons_of_neg _ (by simpa using hx)]
      rcases List.mem_cons.mp h with hk | hmem
      · exact absurd hk.symm hx
      · exact ih hmem

/-- C1: Amazon segment reassembly.  An item is attributed to a segment
exactly when its time window lies entirely inside the segment window
(`item_start >= segment_start` and `item_end <= segment_end`); qualifying
items' texts are joined with single spaces in item order to form the
segment's utterance, the utterances of one speaker are joined with spaces
in segment order, and speakers are listed in order of first appearance.
In particular the single item `(0,1,"hi")` with the single segment
`("spk0",0,1)` yields exactly `[("spk0", "hi")]`. -/
theorem amazon_reassembly_correct (speaker_segments : List AmzSegment)
    (items : List AmzItem) :
    amazonTranscripts speaker_segments items =
        specAmazonTranscripts speaker_segments items ∧
      amazonTranscripts [⟨"spk0", 0, 1⟩] [⟨some (0, 1), ["hi"]⟩] =
        [("spk0", "hi")] :=
  ⟨amazonTranscripts_eq_spec speaker_segments items, by decide⟩

/-- C2 counterexample: with two overlapping segments carrying different
labels, the single item `(0,1,"hi")` qualifies for both segments and its
text appears in both speakers' transcripts, so in general a word is not
assigned to at most one speaker.  Moreover, with the exactly adjacent
segments `(0,1)` and `(1,2)` a zero-length item at time `(1,1)` qualifies
for both, so adjacency alone does not give uniqueness either. -/
theorem amazon_item_two_speakers_cex :
    (([⟨"spk0", 0, 1⟩, ⟨"spk1", 0, 1⟩] : List AmzSegment).filter
        (fun g => itemQualifies g ⟨some (0, 1), ["hi"]⟩)).length = 2 ∧
      amazonTranscripts [⟨"spk0", 0, 1⟩, ⟨"spk1", 0, 1⟩]
          [⟨some (0, 1), ["hi"]⟩] =
        [("spk0", "hi"), ("spk1", "hi")] ∧
      (([⟨"spk0", 0, 1⟩, ⟨"spk1", 1, 2⟩] : List AmzSegment).filter
        (fun g => itemQualifies g ⟨some (1, 1), ["hi"]⟩)).length = 2 := by
  decide

/-- C2 (amended): when the segment time windows are pairwise disjoint
(exactly adjacent boundaries allowed) and the timed item has a strictly
positive duration, the item qualifies for at most one segment of the scan,
and for exactly one when it is contained in some segment. -/
theorem amazon_item_unique_speaker (speaker_segments : List AmzSegment)
    (item : AmzItem) (s e : ℚ)
    (hpw : speaker_segments.Pairwise
      (fun g1 g2 => g1.end_time ≤ g2.start_time ∨ g2.end_time ≤ g1.start_time))
    (ht : item.timing = some (s, e)) (hse : s < e) :
    (speaker_segments.filter (fun g => itemQualifies g item)).length ≤ 1 ∧
      ((∃ g ∈ speaker_segments, itemQualifies g item = true) →
        (speaker_segments.filter (fun g => itemQualifies g item)).length = 1) := by
  have hq_iff : ∀ g : AmzSegment, itemQualifies g item = true ↔
      g.start_time ≤ s ∧ e ≤ g.end_time := by
    intro g
    unfold itemQualifies
    rw [ht]
    simp
  induction speaker_segments with
  | nil => simp
  | cons g rest ih =>
    rw [List.pairwise_cons] at hpw
    obtain ⟨hrel, hpw'⟩ := hpw
    by_cases hq : itemQualifies g item = true
    · have hnone : ∀ g2 ∈ rest, ¬itemQualifies g2 item = true := by
        intro g2 hg2 hq2
        obtain ⟨h1s, h1e⟩ := (hq_iff g).mp hq
        obtain ⟨h2s, h2e⟩ := (hq_iff g2).mp hq2
        rcases hrel g2 hg2 with hd | hd
        · exact absurd (le_trans h1e (le_trans hd h2s)) (not_le.mpr hse)
        · exact absurd (le_trans h2e (le_trans hd h1s)) (not_le.mpr hse)
      have hrest : rest.filter (fun g2 => itemQualifies g2 item) = [] :=
        List.filter_eq_nil_iff.mpr hnone
      simp only [List.filter_cons]
      rw [if_pos hq, hrest]
      exact ⟨le_refl 1, fun _ => rfl⟩
    · simp only [List.filter_cons]
      rw [if_neg hq]
      obtain ⟨ih1, ih2⟩ := ih hpw'
      refine ⟨ih1, ?_⟩
      rintro ⟨g2, hg2, hq2⟩
      rcases List.mem_cons.mp hg2 with rfl | hg2
      · exact absurd hq2 hq
      · exact ih2 ⟨g2, hg2, hq2⟩

/-- Witness for the amended C2 at disjoint adjacent segments and the
contained item `(0,1,"hi")`. -/
theorem amazon_item_unique_speaker_witness :
    (([⟨"spk0", 0, 1⟩, ⟨"spk1", 1, 2⟩] : List AmzSegment).filter
        (fun g => itemQualifies g ⟨some (0, 1), ["hi"]⟩)).length ≤ 1 ∧
      ((∃ g ∈ ([⟨"spk0", 0, 1⟩, ⟨"spk1", 1, 2⟩] : List AmzSegment),
          itemQualifies g ⟨some (0, 1), ["hi"]⟩ = true) →
        (([⟨"spk0", 0, 1⟩, ⟨"spk1", 1, 2⟩] : List AmzSegment).filter
          (fun g => itemQualifies g ⟨some (0, 1), ["hi"]⟩)).length = 1) :=
  amazon_item_unique_speaker _ ⟨some (0, 1), ["hi"]⟩ 0 1 (by decide) rfl (by decide)

/-- C8: items lacking a start time (punctuation-only items) are excluded
from the word scan entirely: dropping them from `items` leaves every
speaker's transcript unchanged, for every combination of segments and
items. -/
theorem amazon_untimed_items_excluded (speaker_segments : List AmzSegment)
    (items : List AmzItem) :
    amazonTranscripts speaker_segments items =
      amazonTranscripts speaker_segments
        (items.filter (fun item => item.timing.isSome)) := by
  unfold amazonTranscripts
  congr 1
  unfold amazonReassembleLists
  apply List.foldl_ext
  intro acc segment _
  have hsw : segmentWords segment (items.filter (fun item => item.timing.isSome)) =
      segmentWords segment items := by
    unfold segmentWords
    congr 1
    rw [List.filter_filter]
    apply List.filter_congr
    intro item _
    cases htm : item.timing <;> simp [itemQualifies, htm]
  rw [hsw]

/-- C10: a speaker label is inserted into the output map as soon as its
first segment is processed: when every segment of the label has no
qualifying timed item, the label is still present, mapped to the empty
string. -/
theorem amazon_speaker_without_words_empty (speaker_segments : List AmzSegment)
    (items : List AmzItem) (l : String)
    (hmem : l ∈ speaker_segments.map (fun s => s.speaker_label))
    (hempty : ∀ s ∈ speaker_segments, s.speaker_label = l →
      segmentWords s items = []) :
    lookupKey (amazonTranscripts speaker_segments items) l = some "" := by
  rw [amazonTranscripts_eq_spec]
  unfold specAmazonTranscripts lookupKey
  rw [List.find?_map]
  have hfind : (dedupFirst (speaker_segments.map (fun s => s.speaker_label))).find?
      (fun l1 => decide (l1 = l)) = some l :=
    find?_eq_self_of_mem _ l ((mem_dedupFirst l _).mpr hmem)
  have hcomp : ((fun p : String × String => decide (p.1 = l)) ∘
      (fun l1 => (l1, joinSpaces
        ((speaker_segments.filter (fun s => decide (s.speaker_label = l1))).filterMap
          (segUtterOpt items))))) = fun l1 => decide (l1 = l) := rfl
  rw [hcomp, hfind]
  have hnil : (speaker_segments.filter
      (fun s => decide (s.speaker_label = l))).filterMap (segUtterOpt items) = [] := by
    rw [List.filterMap_eq_nil_iff]
    intro s hs
    have hsl : s.speaker_label = l := by
      have := List.of_mem_filter hs
      simpa using this
    have hws : segmentWords s items = [] :=
      hempty s (List.mem_of_mem_filter hs) hsl
    unfold segUtterOpt
    rw [hws]
    rfl
  simp only [Option.map_some']
  rw [hnil]
  rfl

/-- Witness for C10: one segment for `spk0` and no items at all. -/
theorem amazon_speaker_without_words_empty_witness :
    lookupKey (amazonTranscripts [⟨"spk0", 0, 1⟩] []) "spk0" = some "" :=
  amazon_speaker_without_words_empty [⟨"spk0", 0, 1⟩] [] "spk0"
    (by decide) (by decide)

/-! ## Google Speech-to-Text pipeline (`google_speaker_diarization.py`) -/

/-- A recognized word: `word_info.word` plus `word_info.speaker_tag`; the
script skips words for which the tag attribute is missing, modelled as an
optional tag. -/
structure GWord where
  speaker_tag : Option Nat
  word : String
deriving DecidableEq

/-- One alternative of a result: `transcript` plus its `words`. -/
structure GAlt where
  transcript : String
  words : List GWord
deriving DecidableEq

/-- One entry of `response.results`. -/
structure GResult where
  alternatives : List GAlt
deriving DecidableEq

/-- The per-word step of both Google paths: skip the word when it has no
speaker tag; otherwise make sure the tag is a key of the dictionary
(`if speaker_tag not in speaker_transcripts: ... = []`) and append the
word. -/
def collectWord (acc : List (Nat × List String)) (w : GWord) :
    List (Nat × List String) :=
  match w.speaker_tag with
  | none => acc
  | some t =>
    let acc1 := if acc.any (fun p => decide (p.1 = t)) then acc else acc ++ [(t, [])]
    acc1.map (fun p => if p.1 = t then (p.1, p.2 ++ [w.word]) else p)

/-- The per-result step of the long-running (GCS) path: results without
alternatives are skipped (`if not result.alternatives: continue`);
otherwise the words of `alternatives[0]` are scanned in order. -/
def collectResult (acc : List (Nat × List String)) (result : GResult) :
    List (Nat × List String) :=
  match result.alternatives with
  | [] => acc
  | alt :: _ => alt.words.foldl collectWord acc

/-- The speaker dictionary built by `transcribe_gcs_with_speaker_diarization`
from all results, before the final join. -/
def gcsSpeakerLists (results : List GResult) : List (Nat × List String) :=
  results.foldl collectResult []

/-- The final per-speaker transcripts of the long-running path:
`" ".join(words)` per speaker. -/
def gcsSpeakerTranscripts (results : List GResult) : List (Nat × String) :=
  (gcsSpeakerLists results).map (fun p => (p.1, joinSpaces p.2))

/-- The speaker-tagged words of the response in order of appearance within
each result and across results, as `(tag, word)` pairs; words without a tag
are skipped, as are results without alternatives. -/
def taggedWords (results : List GResult) : List (Nat × String) :=
  (results.map (fun result =>
    match result.alternatives with
    | [] => []
    | alt :: _ =>
      alt.words.filterMap (fun w => w.speaker_tag.map (fun t => (t, w.word))))).flatten

/-- Declarative description of the Google regrouping, following the spec:
each speaker tag, in order of first appearance, is mapped to the
space-joined concatenation of that tag's words in order of appearance. -/
def specGoogleTranscripts (ws : List (Nat × String)) : List (Nat × String) :=
  (dedupFirst (ws.map Prod.fst)).map
    (fun t => (t, joinSpaces ((ws.filter (fun p => decide (p.1 = t))).map Prod.snd)))

/-- `transcribe_file_with_speaker_diarization` (the synchronous path):
with zero results it returns the empty dictionary; otherwise it uses only
`response.results[-1]`, returns the empty dictionary when that result has
no alternatives, and regroups the words of its first alternative. -/
def syncSpeakerTranscripts (results : List GResult) : List (Nat × String) :=
  match results.getLast? with
  | none => []
  | some result =>
    match result.alternatives with
    | [] => []
    | alt :: _ =>
      (alt.words.foldl collectWord []).map (fun p => (p.1, joinSpaces p.2))

lemma collectWord_eq_upsert (acc : List (Nat × List String)) (w : GWord) :
    collectWord acc w =
      match w.speaker_tag with
      | none => acc
      | some t => upsert acc t (some w.word) := by
  obtain ⟨tag, word⟩ := w
  cases tag <;> rfl

lemma foldl_collectWord_eq (ws : List GWord) :
    ∀ acc : List (Nat × List String),
      ws.foldl collectWord acc =
        (ws.filterMap (fun w => w.speaker_tag.map (fun t => (t, w.word)))).foldl
          (fun acc p => upsert acc p.1 (some p.2)) acc := by
  induction ws with
  | nil => intro acc; rfl
  | cons w rest ih =>
    intro acc
    rw [List.foldl_cons, collectWord_eq_upsert]
    cases hw : w.speaker_tag with
    | none =>
      simp only [List.filterMap_cons, hw, Option.map_none']
      exact ih acc
    | some t =>
      simp only [List.filterMap_cons, hw, Option.map_some', List.foldl_cons]
      exact ih _

lemma gcsSpeakerLists_eq_groupByFirst (results : List GResult) :
    gcsSpeakerLists results =
      groupByFirst ((taggedWords results).map (fun p => (p.1, some p.2))) := by
  have main : ∀ (rs : List GResult) (acc : List (Nat × List String)),
      rs.foldl collectResult acc =
        ((taggedWords rs).map (fun p => (p.1, some p.2))).foldl
          (fun acc p => upsert acc p.1 p.2) acc := by
    intro rs
    induction rs with
    | nil => intro acc; rfl
    | cons r rest ih =>
      intro acc
      simp only [List.foldl_cons, taggedWords, List.map_cons, List.flatten_cons,
        List.map_append, List.foldl_append]
      rw [ih]
      congr 1
      unfold collectResult
      cases r.alternatives with
      | nil => rfl
      | cons alt rest2 =>
        show alt.words.foldl collectWord acc = _
        rw [foldl_collectWord_eq, List.foldl_map]
  unfold gcsSpeakerLists groupByFirst
  exact main results []

lemma gcsSpeakerTranscripts_eq_spec (results : List GResult) :
    gcsSpeakerTranscripts results = specGoogleTranscripts (taggedWords results) := by
  unfold gcsSpeakerTranscripts specGoogleTranscripts
  rw [gcsSpeakerLists_eq_groupByFirst, groupByFirst_eq_specGroup]
  unfold specGroup
  rw [List.map_map, List.map_map]
  apply List.map_congr_left
  intro t _
  simp only [Function.comp]
  congr 1
  unfold groupVals
  rw [List.filter_map, List.filterMap_map]
  have h1 : ((fun p : Nat × Option String => decide (p.1 = t)) ∘
      (fun p : Nat × String => (p.1, some p.2))) =
      fun p : Nat × String => decide (p.1 = t) := rfl
  have h2 : (Prod.snd ∘ (fun p : Nat × String => (p.1, some p.2))) =
      fun p : Nat × String => some p.2 := rfl
  rw [h1, h2]
  have h3 : ∀ l : List (Nat × String),
      l.filterMap (fun p => some p.2) = l.map Prod.snd := by
    intro l
    induction l with
    | nil => rfl
    | cons p rest ih => simp [List.filterMap_cons, ih]
  rw [h3]

/-- C4: Google word regrouping on the long-running path.  The output maps
each speaker tag to the space-joined concatenation of that tag's words in
order of appearance within each result and across results, with keys in
order of the tags' first appearance; in particular the words
`[(1,"hello"), (1,"world"), (2,"hi")]` yield
`[(1, "hello world"), (2, "hi")]`. -/
theorem google_regrouping_correct (results : List GResult) :
    gcsSpeakerTranscripts results = specGoogleTranscripts (taggedWords results) ∧
      gcsSpeakerTranscripts
          [⟨[⟨"hello world hi",
            [⟨some 1, "hello"⟩, ⟨some 1, "world"⟩, ⟨some 2, "hi"⟩]⟩]⟩] =
        [(1, "hello world"), (2, "hi")] :=
  ⟨gcsSpeakerTranscripts_eq_spec results, by decide⟩

/-- C7: a response with zero results yields an empty mapping on both the
synchronous and the long-running path; both functions are total, so no
exception is raised. -/
theorem google_empty_results_empty_map :
    syncSpeakerTranscripts [] = [] ∧ gcsSpeakerTranscripts [] = [] :=
  ⟨rfl, rfl⟩

/-- C9: the synchronous path builds its speaker map from only the last
entry of the result list: prepending any other results leaves the output
unchanged, so words appearing only in earlier results are absent. -/
theorem google_sync_uses_last_result (rs : List GResult) (r : GResult) :
    syncSpeakerTranscripts (rs ++ [r]) = syncSpeakerTranscripts [r] := by
  unfold syncSpeakerTranscripts
  rw [List.getLast?_concat]
  rfl

/-! ## Polling loops

The Amazon script waits with `while True: ... if status in ['COMPLETED',
'FAILED']: break; time.sleep(30)` — the loop body contains no timeout
check at all, so its only outcomes are a terminal status or more polling.
The Google GCS script waits with `while not operation.done():` and raises
`TimeoutError` as soon as the elapsed time exceeds the `timeout` budget.
Both loops are embedded with a fuel argument counting the polls performed
so far; exhausted fuel means the loop is still polling. -/

/-- The Amazon wait loop, reading the job status at each poll from the
stream `status`.  `some s` is the terminal status at which the loop broke,
`none` means the loop is still polling after `fuel` polls.  Faithful to the
source, there is no timeout outcome. -/
def amazonPollLoop (status : Nat → String) : Nat → Nat → Option String
  | _, 0 => none
  | i, fuel + 1 =>
    if status i = "COMPLETED" ∨ status i = "FAILED" then some (status i)
    else amazonPollLoop status (i + 1) fuel

/-- Outcome of the Google GCS wait loop. -/
inductive GPoll where
  | completed : GPoll
  | timedOut : GPoll
  | running : GPoll
deriving DecidableEq

/-- The Google GCS wait loop: at poll `i` it first checks
`operation.done()`, then raises once `elapsed_time > timeout`, otherwise
sleeps and polls again. -/
def googlePollLoop (done : Nat → Bool) (elapsedAt : Nat → ℚ) (timeout : ℚ) :
    Nat → Nat → GPoll
  | _, 0 => .running
  | i, fuel + 1 =>
    if done i then .completed
    else if elapsedAt i > timeout then .timedOut
    else googlePollLoop done elapsedAt timeout (i + 1) fuel

/-- Outcome of `transcribe_gcs_with_speaker_diarization` after the wait
loop: the speaker map on completion, a `TimeoutError` carrying the
configured budget, or still polling. -/
inductive GcsOutcome where
  | result : List (Nat × String) → GcsOutcome
  | timeoutError : ℚ → GcsOutcome
  | polling : GcsOutcome
deriving DecidableEq

/-- The GCS path after submission: run the wait loop, then on completion
regroup the response's words per speaker. -/
def gcsTranscribeOutcome (done : Nat → Bool) (elapsedAt : Nat → ℚ)
    (timeout : ℚ) (results : List GResult) (fuel : Nat) : GcsOutcome :=
  match googlePollLoop done elapsedAt timeout 0 fuel with
  | .completed => .result (gcsSpeakerTranscripts results)
  | .timedOut => .timeoutError timeout
  | .running => .polling

lemma amazonPollLoop_none_of_nonterminal (status : Nat → String)
    (h : ∀ i, ¬(status i = "COMPLETED" ∨ status i = "FAILED")) :
    ∀ (fuel i : Nat), amazonPollLoop status i fuel = none := by
  intro fuel
  induction fuel with
  | zero => intro i; rfl
  | succ f ih =>
    intro i
    show (if status i = "COMPLETED" ∨ status i = "FAILED"
      then some (status i) else amazonPollLoop status (i + 1) f) = none
    rw [if_neg (h i)]
    exact ih (i + 1)

lemma googlePollLoop_step (done : Nat → Bool) (elapsedAt : Nat → ℚ)
    (timeout : ℚ) (i fuel : Nat) :
    googlePollLoop done elapsedAt timeout i (fuel + 1) =
      if done i then GPoll.completed
      else if elapsedAt i > timeout then GPoll.timedOut
      else googlePollLoop done elapsedAt timeout (i + 1) fuel := rfl

lemma googlePollLoop_shift (done : Nat → Bool) (elapsedAt : Nat → ℚ)
    (timeout : ℚ) :
    ∀ (m i fuel : Nat),
      (∀ j, j < m → done (i + j) = false ∧ elapsedAt (i + j) ≤ timeout) →
      googlePollLoop done elapsedAt timeout i (m + fuel) =
        googlePollLoop done elapsedAt timeout (i + m) fuel := by
  intro m
  induction m with
  | zero =>
    intro i fuel _
    simp
  | succ m ih =>
    intro i fuel h
    obtain ⟨hdone, helap⟩ := h 0 (Nat.succ_pos m)
    rw [show m + 1 + fuel = (m + fuel) + 1 by omega, googlePollLoop_step]
    rw [if_neg (by simp at hdone ⊢; simpa using hdone)]
    rw [if_neg (not_lt.mpr (by simpa using helap))]
    rw [ih (i + 1) fuel (fun j hj => by
      have := h (j + 1) (by omega)
      constructor
      · simpa [Nat.add_assoc, Nat.add_comm 1 j] using this.1
      · simpa [Nat.add_assoc, Nat.add_comm 1 j] using this.2)]
    congr 1
    omega

lemma googlePollLoop_timedOut (done : Nat → Bool) (elapsedAt : Nat → ℚ)
    (timeout : ℚ) (k : Nat)
    (hd : ∀ j, j ≤ k → done j = false)
    (hb : ∀ j, j < k → elapsedAt j ≤ timeout)
    (hk : elapsedAt k > timeout) :
    ∀ fuel, k < fuel → googlePollLoop done elapsedAt timeout 0 fuel = GPoll.timedOut := by
  intro fuel hf
  obtain ⟨f2, rfl⟩ : ∃ f2, fuel = k + (f2 + 1) := ⟨fuel - k - 1, by omega⟩
  rw [googlePollLoop_shift done elapsedAt timeout k 0 (f2 + 1)
    (fun j hj => ⟨by simpa using hd j (le_of_lt hj), by simpa using hb j hj⟩)]
  rw [show (0 + k) = k by omega, googlePollLoop_step]
  rw [if_neg (by simp [hd k (le_refl k)]), if_pos hk]

/-- C3 counterexample: a job status that never becomes terminal.  After
1000 polls (a thirty-second sleep each, far beyond any timeout budget) the
Amazon wait loop is still polling and has raised nothing: the loop has no
timeout branch, so no timeout error is ever raised in the Amazon
pipeline. -/
theorem amazon_poll_no_timeout_cex :
    amazonPollLoop (fun _ => "IN_PROGRESS") 0 1000 = none :=
  amazonPollLoop_none_of_nonterminal _ (fun _ => by decide) 1000 0

/-- C3 (amended): when the remote job never becomes terminal, the Google
GCS wait loop raises a timeout once the elapsed time exceeds the budget,
while the Amazon wait loop has no timeout and is still polling after any
number of polls. -/
theorem polling_loops_on_nonterminal_status (done : Nat → Bool)
    (elapsedAt : Nat → ℚ) (timeout : ℚ) (status : Nat → String) (k fuel : Nat)
    (hnever : ∀ i, done i = false)
    (hb : ∀ j, j < k → elapsedAt j ≤ timeout)
    (hk : elapsedAt k > timeout)
    (hfuel : k < fuel)
    (hstatus : ∀ i, status i ≠ "COMPLETED" ∧ status i ≠ "FAILED") :
    googlePollLoop done elapsedAt timeout 0 fuel = GPoll.timedOut ∧
      amazonPollLoop status 0 fuel = none :=
  ⟨googlePollLoop_timedOut done elapsedAt timeout k
      (fun j _ => hnever j) hb hk fuel hfuel,
    amazonPollLoop_none_of_nonterminal status
      (fun i h => h.elim (hstatus i).1 (hstatus i).2) fuel 0⟩

/-- Witness for the amended C3: the operation is never done, the clock
jumps past the five-second budget at the second poll, the job status stays
`IN_PROGRESS`. -/
theorem polling_loops_on_nonterminal_status_witness :
    googlePollLoop (fun _ => false) (fun i => if i = 0 then 0 else 10) 5 0 3 =
        GPoll.timedOut ∧
      amazonPollLoop (fun _ => "IN_PROGRESS") 0 3 = none :=
  polling_loops_on_nonterminal_status (fun _ => false)
    (fun i => if i = 0 then 0 else 10) 5 (fun _ => "IN_PROGRESS") 1 3
    (fun _ => rfl)
    (fun j hj => by
      have hj0 : j = 0 := by omega
      subst hj0
      decide)
    (by decide) (by omega)
    (by
      intro i
      constructor
      · show "IN_PROGRESS" ≠ "COMPLETED"
        decide
      · show "IN_PROGRESS" ≠ "FAILED"
        decide)

/-- C6: on the Google long-running path, when the operation is not done
and the elapsed time exceeds the caller-supplied budget, the outcome is the
distinct `timeoutError` (the embedding of `raise TimeoutError`, a
constructor separate from every other outcome), and no speaker map is
returned. -/
theorem google_timeout_error (done : Nat → Bool) (elapsedAt : Nat → ℚ)
    (timeout : ℚ) (results : List GResult) (k fuel : Nat)
    (hd : ∀ j, j ≤ k → done j = false)
    (hb : ∀ j, j < k → elapsedAt j ≤ timeout)
    (hk : elapsedAt k > timeout)
    (hfuel : k < fuel) :
    gcsTranscribeOutcome done elapsedAt timeout results fuel =
        GcsOutcome.timeoutError timeout ∧
      ∀ m, gcsTranscribeOutcome done elapsedAt timeout results fuel ≠
        GcsOutcome.result m := by
  have hloop := googlePollLoop_timedOut done elapsedAt timeout k hd hb hk fuel hfuel
  unfold gcsTranscribeOutcome
  rw [hloop]
  exact ⟨rfl, fun m h => by cases h⟩

/-- Witness for C6 at a concrete never-done operation whose clock crosses
the budget at the second poll. -/
theorem google_timeout_error_witness :
    gcsTranscribeOutcome (fun _ => false) (fun i => if i = 0 then 0 else 10) 5
          [] 3 =
        GcsOutcome.timeoutError 5 ∧
      ∀ m, gcsTranscribeOutcome (fun _ => false)
          (fun i => if i = 0 then 0 else 10) 5 [] 3 ≠
        GcsOutcome.result m :=
  google_timeout_error (fun _ => false) (fun i => if i = 0 then 0 else 10) 5 [] 1 3
    (fun _ _ => rfl)
    (fun j hj => by
      have hj0 : j = 0 := by omega
      subst hj0
      decide)
    (by decide) (by omega)

/-! ## Amazon submission format check -/

/-- Python `str.split(sep)` for a one-character separator, over the
character list. -/
def splitOnChar (sep : Char) : List Char → List (List Char)
  | [] => [[]]
  | c :: cs =>
    if c = sep then [] :: splitOnChar sep cs
    else
      match splitOnChar sep cs with
      | [] => [[c]]
      | g :: gs => (c :: g) :: gs

/-- The script's `file_format = parsed_url.path.split('.')[-1].lower()`,
applied to the path component of the audio URI. -/
def fileFormat (uriPath : String) : String :=
  String.mk (((splitOnChar '.' uriPath.data).getLastD []).map Char.toLower)

/-- The script's `supported_formats` list. -/
def supported_formats : List String :=
  ["mp3", "mp4", "wav", "flac", "ogg", "amr", "webm"]

/-- Result of the submission phase of the Amazon script. -/
inductive AmzSubmit where
  | rejected : String → AmzSubmit
  | submitted : AmzSubmit
deriving DecidableEq

/-- The submission phase of `transcribe_with_speaker_diarization`: compute
the file format, raise `ValueError` when it is unsupported, otherwise call
`start_transcription_job` and then poll with `get_transcription_job`.  The
first component lists the remote calls made. -/
def amazonSubmission (uriPath : String) : List String × AmzSubmit :=
  let file_format := fileFormat uriPath
  if file_format ∈ supported_formats then
    (["StartTranscriptionJob", "GetTranscriptionJob"], .submitted)
  else
    ([], .rejected ("unsupported format: " ++ file_format))

/-- C5: for every URI path whose extension (lowercased text after the last
dot) is not a supported format, the Amazon script raises a descriptive
error naming the format before any remote call: the call trace is empty,
so no transcription job is submitted and none is polled. -/
theorem amazon_unsupported_format_rejected (uriPath : String)
    (h : fileFormat uriPath ∉ supported_formats) :
    amazonSubmission uriPath =
      ([], AmzSubmit.rejected ("unsupported format: " ++ fileFormat uriPath)) := by
  unfold amazonSubmission
  rw [if_neg h]

/-- Witness for C5 at the unsupported extension `.xyz`. -/
theorem amazon_unsupported_format_rejected_witness :
    fileFormat "/your-audio-file.xyz" ∉ supported_formats ∧
      amazonSubmission "/your-audio-file.xyz" =
        ([], AmzSubmit.rejected
          ("unsupported format: " ++ fileFormat "/your-audio-file.xyz")) :=
  ⟨by decide, amazon_unsupported_format_rejected _ (by decide)⟩
